import Mathlib

/-!
Verification development for the interactive stash command wizard
(`src/commands/git/stash.ts`): a shallow embedding of the wizard state, the
step sequencer, the four subcommand step chains, and the outer error
classification, together with theorems about the behaviour the
specification describes.

The source file is a TypeScript class (`StashGitCommand`) whose `steps()`
async generator yields step descriptors to a presentation layer and receives
selections back.  Here the generator is embedded as an executable interpreter:
it consumes a list of presentation-layer responses and produces the trace of
yielded step descriptors and issued git operations, the final wizard state,
and an outcome.  External collaborators (repository listing, stash listing,
commit action menus) are supplied through an environment record.  Helpers that
live in the engine base class (`QuickCommandBase`) or other modules outside
the sources under study are modelled from the specification and marked as
such in their doc comments.
-/

namespace GitLens

/-- The subcommand tag of the stash wizard (`State['subcommand']`). -/
inductive Subcommand
  | apply
  | drop
  | list
  | pop
  | push
deriving DecidableEq, Repr

/-- Push flags (`type PushFlags = '--include-untracked' | '--keep-index'`). -/
inductive PushFlag
  | includeUntracked
  | keepIndex
deriving DecidableEq, Repr

/-- A stash entry reference as stored in the wizard state
(`{ stashName: string; message: string; ref: string; repoPath: string }`). -/
structure Stash where
  stashName : String
  message : String
  ref : String
  repoPath : String
deriving DecidableEq, Repr

/-- A repository handle (the fields of `Repository` the wizard reads). -/
structure Repo where
  id : String
  path : String
  formattedName : String
deriving DecidableEq, Repr

/-- `subcommandToSubtitleMap` / `getSubtitle`: subtitle text per subcommand. -/
def getSubtitle : Option Subcommand → String
  | none => ""
  | some .apply => "Apply"
  | some .drop => "Drop"
  | some .list => "List"
  | some .pop => "Pop"
  | some .push => "Push"

/-- The command title passed to the base constructor (`super('stash', 'stash', 'Stash', ...)`). -/
def stashTitle : String := "Stash"

/-- `GlyphChars.Ellipsis` (U+2026), used when truncating long stash messages. -/
def ellipsis : String := "…"

/-- Modelled from the spec: `Strings.pad` from the system string utilities
(not under the sources in scope) surrounds a glyph with non-breaking spaces;
only its output's presence in titles/descriptions matters here. -/
def strPad (s : String) (before after : Nat) : String :=
  String.mk (List.replicate before ' ') ++ s ++ String.mk (List.replicate after ' ')

/-- `Strings.pad(GlyphChars.Dash, 2, 2)`: the padded em-dash separating a stash
name from its message in confirmation descriptions. -/
def dashPad : String := strPad "—" 2 2

/-- `Strings.pad(GlyphChars.Dot, 2, 2)`: the padded dot separating title segments. -/
def dotPad : String := strPad "•" 2 2

/-- Character-list prefix test (used to build the substring test below). -/
def charsPrefix : List Char → List Char → Bool
  | [], _ => true
  | _ :: _, [] => false
  | a :: as, b :: bs => a == b && charsPrefix as bs

/-- Character-list substring test. -/
def charsContains (hay needle : List Char) : Bool :=
  match hay with
  | [] => needle.isEmpty
  | _ :: rest => charsPrefix needle hay || charsContains rest needle

/-- JavaScript `String.prototype.includes`: substring containment. -/
def jsIncludes (s needle : String) : Bool :=
  charsContains s.data needle.data

/-- The message shown in apply/pop and drop confirmation descriptions:
`state.stash.message.length > 80 ? message.substring(0, 80) + Ellipsis : message`. -/
def truncatedMessage (m : String) : String :=
  if m.length > 80 then m.take 80 ++ ellipsis else m

/-- Modelled from the spec: `GitUri.getFormattedPath` (not under the sources in
scope) renders a file path relative to the repository root. -/
def getFormattedPath (uri relativeTo : String) : String :=
  if (relativeTo ++ "/").isPrefixOf uri then uri.drop (relativeTo.length + 1) else uri

/-- `get canConfirm()`: every subcommand but `list` has a confirmation step. -/
def canConfirm (sub : Option Subcommand) : Bool :=
  sub != none && sub != some .list

/-- `get canSkipConfirm()`: `drop` never allows skipping confirmation;
otherwise the base class decides (`base` stands for `super.canSkipConfirm`). -/
def canSkipConfirm (sub : Option Subcommand) (base : Bool) : Bool :=
  if sub == some .drop then false else base

/-- Modelled from the spec: the base quick-command engine's `canSkipConfirm`
(the engine lives outside the sources in scope); per the spec, confirmation
"can be statically skipped per user preference" by default. -/
def baseCanSkipConfirm : Bool := true

/-- Modelled from the spec: the base quick-command engine's `confirm(override?)`
gate deciding whether a confirmation step is shown.  Per the spec, the optional
per-invocation override forces confirmation on or off "regardless of the user's
remembered preference"; a command that cannot confirm never shows the step, one
that cannot skip always does; otherwise the remembered skip preference applies. -/
def confirmGate (sub : Option Subcommand) (skipPref : Bool) (override : Option Bool) : Bool :=
  if !canConfirm sub then false
  else if !canSkipConfirm sub baseCanSkipConfirm then true
  else
    match override with
    | some b => b
    | none => !skipPref

/-- A caller-supplied partial wizard state (`Partial<State>` in
`StashGitCommandArgs`). -/
structure PartialState where
  subcommand : Option Subcommand := none
  repo : Option Repo := none
  stash : Option Stash := none
  message : Option String := none
  uris : Option (List String) := none
  flags : Option (List PushFlag) := none
deriving Repr

/-- The constructor's initial `counter` computation: one increment per already
populated field, where the third increment depends on the supplied subcommand
(`stash` for apply/drop/pop, `message` for push, nothing otherwise). -/
def initialCounter (p : PartialState) : Int :=
  let c0 : Int := 0
  let c1 := if p.subcommand.isSome then c0 + 1 else c0
  let c2 := if p.repo.isSome then c1 + 1 else c1
  match p.subcommand with
  | some .apply | some .drop | some .pop => if p.stash.isSome then c2 + 1 else c2
  | some .push => if p.message.isSome then c2 + 1 else c2
  | _ => c2

/-- The number of populated fields of a partial state counted independently of
position, among subcommand, repo, and the subcommand-specific third field. -/
def populatedFieldCount (p : PartialState) : Int :=
  (if p.subcommand.isSome then (1 : Int) else 0)
    + (if p.repo.isSome then (1 : Int) else 0)
    + (match p.subcommand with
       | some .apply | some .drop | some .pop => if p.stash.isSome then (1 : Int) else 0
       | some .push => if p.message.isSome then (1 : Int) else 0
       | _ => 0)

/-- The count of leading populated fields in step order (subcommand, then repo,
then the subcommand-specific stash or message), stated as the claim words it:
counting stops at the first unpopulated field. -/
def leadingPopulatedCount (p : PartialState) : Int :=
  match p.subcommand with
  | none => 0
  | some sc =>
    if !p.repo.isSome then 1
    else
      match sc with
      | .apply | .drop | .pop => if p.stash.isSome then 3 else 2
      | .push => if p.message.isSome then 3 else 2
      | .list => 2

/-- ASCII whitespace, for the message-trim below. -/
def isWhitespaceChar (c : Char) : Bool :=
  c == ' ' || c == '\t' || c == '\n' || c == '\r'

/-- `String.prototype.trim`, embedded structurally on the character list. -/
def jsTrim (s : String) : String :=
  String.mk (((s.data.dropWhile isWhitespaceChar).reverse.dropWhile isWhitespaceChar).reverse)

/-- `.replace(/\n+?/g, '; ')`: the lazy global pattern replaces each single
newline character with `"; "`. -/
def collapseNewlines (s : String) : String :=
  String.mk (s.data.flatMap (fun c => if c == '\n' then [';', ' '] else [c]))

/-- An exception reaching the outermost `try`/`catch` of `steps()`: either the
distinguished `BreakQuickCommand` signal or an error carrying a message. -/
inductive Exn
  | brk
  | error (message : String)
deriving DecidableEq, Repr

/-- What the outermost catch handler does with an exception. -/
inductive CatchResult
  /-- `if (ex instanceof BreakQuickCommand) break;`: leave the wizard loop normally. -/
  | breakLoop
  /-- `void window.showWarningMessage(msg); return undefined;` -/
  | warning (msg : String)
  /-- `void window.showInformationMessage(msg); return undefined;` -/
  | info (msg : String)
  /-- `void Messages.showGenericErrorMessage(msg); return undefined;` -/
  | genericError (msg : String)
  /-- `void window.showErrorMessage(msg); return undefined;` -/
  | errorMessage (msg : String)
  /-- `throw ex;`: the exception is re-raised to the caller. -/
  | rethrow
deriving DecidableEq, Repr

/-- The full phrase matched for the apply/pop overwrite warning. -/
def overwritePhrase : String :=
  "Your local changes to the following files would be overwritten by merge"

/-- The outermost catch handler of `steps()` (lines 263–311):
`BreakQuickCommand` breaks the loop; otherwise the currently active subcommand
tag selects a classification; a tag with no case (including `list` and an unset
tag) falls through to `throw ex`. -/
def stepsCatchHandler (sub : Option Subcommand) : Exn → CatchResult
  | .brk => .breakLoop
  | .error m =>
    match sub with
    | some .apply | some .pop =>
      if jsIncludes m overwritePhrase then
        .warning "Unable to apply stash. Your working tree changes would be overwritten"
      else if jsIncludes m "Auto-merging" && jsIncludes m "CONFLICT" then
        .info "Stash applied with conflicts"
      else
        .genericError ("Unable to apply stash — " ++ collapseNewlines (jsTrim m))
    | some .drop => .genericError "Unable to delete stash"
    | some .push =>
      if jsIncludes m "newer version of Git" then
        .errorMessage ("Unable to stash changes. " ++ m)
      else
        .genericError "Unable to stash changes"
    | _ => .rethrow

/-- The navigation directives (`Directive.Back` / `Directive.Cancel`). -/
inductive NavDirective
  | back
  | cancel
deriving DecidableEq, Repr

/-- The answer payload carried by a selectable item. -/
inductive ItemPayload
  /-- A subcommand choice (top-level step). -/
  | sub (sc : Subcommand)
  /-- A repository choice. -/
  | repo (r : Repo)
  /-- A stash choice (`CommitQuickPickItem`). -/
  | stash (s : Stash)
  /-- The `command: 'apply' | 'pop'` field of an apply/pop confirmation item. -/
  | verb (sc : Subcommand)
  /-- The flag bundle of a push confirmation item (`FlagsQuickPickItem`). -/
  | flags (fs : List PushFlag)
  /-- An entry of the list chain's secondary menu; `isCommand` marks a
  `CommandQuickPickItem` (an executable sub-action). -/
  | listAction (isCommand : Bool)
  /-- A confirmation item carrying no payload (drop). -/
  | plain
  /-- A sentinel directive item (`DirectiveQuickPickItem`). -/
  | directive (d : NavDirective)
deriving DecidableEq, Repr

/-- One selectable entry of a step (label/description/detail plus payload). -/
structure Item where
  label : String
  description : String
  detail : String
  picked : Bool
  payload : ItemPayload
deriving DecidableEq, Repr

/-- `DirectiveQuickPickItem.create`. -/
def directiveItem (d : NavDirective) (picked : Bool) : Item :=
  { label := match d with | .back => "Back" | .cancel => "Cancel"
    description := ""
    detail := ""
    picked := picked
    payload := .directive d }

/-- Modelled from the spec: `CommitQuickPickItem.create(c, picked, {compact})`
(presentation module, not under the sources in scope): a selectable row for one
changeset; its payload is the changeset itself. -/
def commitItem (c : Stash) (picked : Bool) : Item :=
  { label := c.stashName
    description := c.message
    detail := ""
    picked := picked
    payload := .stash c }

/-- Modelled from the spec: `RepositoryQuickPickItem.create(r, picked, ...)`
(presentation module, not under the sources in scope). -/
def repositoryItem (r : Repo) (picked : Bool) : Item :=
  { label := r.formattedName
    description := ""
    detail := ""
    picked := picked
    payload := .repo r }

/-- Which suspension point a step descriptor belongs to. -/
inductive StepId
  | pickSubcommand
  | pickRepo
  | pickStashApplyPop
  | confirmApplyPop
  | pickStashDrop
  | confirmDrop
  | pickStashList
  | pickListAction
  | inputMessage
  | confirmPush
deriving DecidableEq, Repr

/-- The interaction kind of a step. -/
inductive StepKind
  | pick
  | confirm
  | input
deriving DecidableEq, Repr

/-- A step descriptor as yielded to the presentation layer.  Side-channel-only
options of the source (buttons, key bindings, `matchOnDetail`) are omitted:
per the spec they never resolve a step. -/
structure StepDesc where
  id : StepId
  kind : StepKind
  title : String
  placeholder : String
  items : List Item
  value : Option String := none
deriving DecidableEq, Repr

/-- An entry of the observable trace of one wizard invocation. -/
inductive Event
  /-- A step descriptor was yielded to the presentation layer. -/
  | yieldStep (d : StepDesc)
  /-- `Container.git.stashApply(repoPath, stashName, deleteAfter)` was issued. -/
  | gitStashApply (repoPath stashName : String) (deleteAfter : Bool)
  /-- `Container.git.stashDelete(repoPath, stashName)` was issued. -/
  | gitStashDelete (repoPath stashName : String)
  /-- `Container.git.stashSave(repoPath, message, uris, {includeUntracked, keepIndex})` was issued. -/
  | gitStashSave (repoPath message : String) (uris : Option (List String))
      (includeUntracked keepIndex : Bool)
  /-- The list chain executed a selected `CommandQuickPickItem`. -/
  | executeCommand
deriving DecidableEq, Repr

/-- Terminal events: the external mutating (or, for list, executing) operations. -/
def Event.isTerminal : Event → Bool
  | .yieldStep _ => false
  | _ => true

/-- Recognise a `stashDelete` event. -/
def Event.isDelete : Event → Bool
  | .gitStashDelete _ _ => true
  | _ => false

/-- Recognise a yield of the repository-selection step. -/
def Event.isRepoYield : Event → Bool
  | .yieldStep d => d.id == .pickRepo
  | _ => false

/-- The step id of a yield event, if any. -/
def Event.stepId : Event → Option StepId
  | .yieldStep d => some d.id
  | _ => none

/-- The mutable wizard state (`StepState<State>`), one per invocation. -/
structure WizardState where
  counter : Int
  subcommand : Option Subcommand := none
  repo : Option Repo := none
  stash : Option Stash := none
  message : Option String := none
  uris : Option (List String) := none
  flags : Option (List PushFlag) := none
  /-- The per-invocation confirmation override (`args.confirm`). -/
  confirm : Option Bool := none
deriving DecidableEq, Repr

/-- `this._initialState = { counter, confirm: args.confirm, ...args.state }`. -/
def initState (p : PartialState) (confirmOverride : Option Bool) : WizardState :=
  { counter := initialCounter p
    subcommand := p.subcommand
    repo := p.repo
    stash := p.stash
    message := p.message
    uris := p.uris
    flags := p.flags
    confirm := confirmOverride }

/-- Modelled from the spec: moving a step forward advances the counter
("`counter` only increases going forward"). -/
def incCounter (st : WizardState) : WizardState :=
  { st with counter := st.counter + 1 }

/-- Modelled from the spec: back-navigation rewinds the counter so the unmet
"set AND counter advanced" condition re-asks the previous step; the counter is
an integer that stays ≥ 0. -/
def decCounter (st : WizardState) : WizardState :=
  { st with counter := max 0 (st.counter - 1) }

/-- A presentation-layer response to one yielded step: a chosen item, a typed
string, or a navigation directive. -/
inductive Response
  | pick (n : Nat)
  | input (s : String)
  | back
  | cancel
deriving DecidableEq, Repr

/-- The external collaborators consumed by the wizard, plus the remembered
confirmation-skip preference that the modelled engine gate consults. -/
structure Env where
  /-- `Container.git.getOrderedRepositories()`. -/
  repositories : List Repo
  /-- `Container.git.getActiveRepository()`. -/
  activeRepo : Option Repo
  /-- `Container.git.getStashList(repoPath)`; `none` signals "no stashes". -/
  stashList : String → Option (List Stash)
  /-- `CommitQuickPick.getItems(stash, ...)`: the secondary menu of the list chain. -/
  commitActionItems : Stash → List Item
  /-- The user's remembered confirmation-skip preference. -/
  skipConfirmPref : Bool

/-- How one yielded pick/confirm step resolves under the next response.
Selecting a sentinel directive item behaves as that directive. -/
inductive PickResolution
  | forward (it : Item) (rest : List Response)
  | goBack (rest : List Response)
  | cancel (rest : List Response)
  | noInput
  | badInput (rest : List Response)
deriving Repr

/-- Modelled from the spec: resolve a pick/confirm step against the next
presentation-layer response (the engine's `canPickStepMoveNext` discipline:
Back rewinds and re-enters, Cancel aborts the wizard, a selection advances). -/
def resolvePick (items : List Item) : List Response → PickResolution
  | [] => .noInput
  | r :: rest =>
    match r with
    | .pick n =>
      match items.get? n with
      | none => .badInput rest
      | some it =>
        match it.payload with
        | .directive .back => .goBack rest
        | .directive .cancel => .cancel rest
        | _ => .forward it rest
    | .back => .goBack rest
    | .cancel => .cancel rest
    | .input _ => .badInput rest

/-- How one yielded free-text input step resolves under the next response. -/
inductive InputResolution
  | text (s : String) (rest : List Response)
  | goBack (rest : List Response)
  | cancel (rest : List Response)
  | noInput
  | badInput (rest : List Response)
deriving Repr

/-- Modelled from the spec: resolve a free-text input step against the next
presentation-layer response (the engine's `canInputStepMoveNext` discipline;
any typed string, including the empty string, is accepted as valid input). -/
def resolveInput : List Response → InputResolution
  | [] => .noInput
  | .input s :: rest => .text s rest
  | .back :: rest => .goBack rest
  | .cancel :: rest => .cancel rest
  | .pick _ :: rest => .badInput rest

/-- How a subcommand chain hands control back to the sequencer. -/
inductive ChainExit
  /-- The chain's loop exited normally (user went back): control returns to the
  top of the sequencer loop. -/
  | normal
  /-- `throw new BreakQuickCommand()` (after a terminal operation, or a Cancel
  directive inside a step resolution). -/
  | brk
  /-- The response list was exhausted while a step was pending. -/
  | outOfInputs
  /-- A response that the presentation layer can never produce for this step. -/
  | badInput
  /-- Interpreter fuel ran out (the list chain can loop). -/
  | fuelOut
deriving DecidableEq, Repr

/-- The result of running a subcommand chain. -/
structure ChainResult where
  events : List Event
  state : WizardState
  rest : List Response
  exit : ChainExit
deriving Repr

/-- Whether a listed changeset row is pre-picked: the source compares its
stash name against `state.stash && state.stash.stashName`. -/
def stashRowPicked (cur : Option Stash) (c : Stash) : Bool :=
  match cur with
  | none => false
  | some s0 => c.stashName == s0.stashName

/-- The items of the stash-selection step: the two sentinel directives when the
listing is empty, otherwise one row per listed changeset. -/
def stashPickItems (stashOpt : Option (List Stash)) (cur : Option Stash) : List Item :=
  match stashOpt with
  | none => [directiveItem .back true, directiveItem .cancel false]
  | some l => l.map (fun c => commitItem c (stashRowPicked cur c))

/-- The stash-selection step of the apply/pop chain. -/
def applyOrPopPickStep (repo : Repo) (st : WizardState)
    (stashOpt : Option (List Stash)) : StepDesc :=
  { id := .pickStashApplyPop
    kind := .pick
    title := stashTitle ++ " " ++ getSubtitle st.subcommand ++ dotPad ++ repo.formattedName
    placeholder :=
      match stashOpt with
      | none => repo.formattedName ++ " has no stashes"
      | some _ => "Choose a stash to apply to your working tree"
    items := stashPickItems stashOpt st.stash }

/-- `'apply'` when entered as pop and `'pop'` when entered as apply:
`state.subcommand === 'pop' ? 'apply' : 'pop'`. -/
def invertVerb (sc : Subcommand) : Subcommand :=
  if sc == .pop then .apply else .pop

/-- The detail line of an apply/pop confirmation item for verb `sc`. -/
def applyOrPopDetail (sc : Subcommand) (s : Stash) (repo : Repo) : String :=
  if sc == .pop then
    "Will delete " ++ s.stashName ++ " and apply the changes to the working tree of "
      ++ repo.formattedName
  else
    "Will apply the changes from " ++ s.stashName ++ " to the working tree of "
      ++ repo.formattedName

/-- The confirmation step of the apply/pop chain: the requested verb first,
then the inverted alternate, each carrying its verb as the `command` payload. -/
def applyOrPopConfirmStep (repo : Repo) (sc : Subcommand) (s : Stash) : StepDesc :=
  { id := .confirmApplyPop
    kind := .confirm
    title := "Confirm " ++ stashTitle ++ " " ++ getSubtitle (some sc) ++ dotPad
      ++ repo.formattedName
    placeholder := "Confirm " ++ stashTitle ++ " " ++ getSubtitle (some sc)
    items :=
      [ { label := stashTitle ++ " " ++ getSubtitle (some sc)
          description := s.stashName ++ dashPad ++ truncatedMessage s.message
          detail := applyOrPopDetail sc s repo
          picked := false
          payload := .verb sc },
        { label := stashTitle ++ " " ++ (if sc == .pop then "Apply" else "Pop")
          description := s.stashName ++ dashPad ++ truncatedMessage s.message
          detail := applyOrPopDetail (invertVerb sc) s repo
          picked := false
          payload := .verb (invertVerb sc) } ] }

/-- The apply/pop chain from the point where a stash is selected: the gated
confirmation step (which may switch the verb) followed by the terminal
`stashApply` call and the break signal. -/
def applyOrPopTail (env : Env) (repo : Repo) (sc : Subcommand) (s : Stash)
    (st : WizardState) (inp : List Response) : ChainResult :=
  if confirmGate (some sc) env.skipConfirmPref st.confirm then
    let step := applyOrPopConfirmStep repo sc s
    match resolvePick step.items inp with
    | .noInput => ⟨[.yieldStep step], st, [], .outOfInputs⟩
    | .badInput rest => ⟨[.yieldStep step], st, rest, .badInput⟩
    | .goBack rest => ⟨[.yieldStep step], decCounter st, rest, .normal⟩
    | .cancel rest => ⟨[.yieldStep step], st, rest, .brk⟩
    | .forward it rest =>
      match it.payload with
      | .verb v =>
        ⟨[.yieldStep step, .gitStashApply repo.path s.stashName (v == .pop)],
          { incCounter st with subcommand := some v }, rest, .brk⟩
      | _ => ⟨[.yieldStep step], st, rest, .badInput⟩
  else
    ⟨[.gitStashApply repo.path s.stashName (sc == .pop)], st, inp, .brk⟩

/-- The apply/pop chain (`applyOrPop`): select a stash unless already set and
advanced past, then confirm (possibly switching the verb), then issue the
terminal apply and raise the break signal. -/
def applyOrPop (env : Env) (repo : Repo) (st0 : WizardState)
    (inp0 : List Response) : ChainResult :=
  match st0.subcommand with
  | none => ⟨[], st0, inp0, .badInput⟩
  | some sc =>
    if st0.stash = none ∨ st0.counter < 3 then
      let stashOpt := env.stashList repo.path
      let step := applyOrPopPickStep repo st0 stashOpt
      match resolvePick step.items inp0 with
      | .noInput => ⟨[.yieldStep step], st0, [], .outOfInputs⟩
      | .badInput rest => ⟨[.yieldStep step], st0, rest, .badInput⟩
      | .goBack rest => ⟨[.yieldStep step], decCounter st0, rest, .normal⟩
      | .cancel rest => ⟨[.yieldStep step], st0, rest, .brk⟩
      | .forward it rest =>
        match it.payload with
        | .stash s =>
          let r := applyOrPopTail env repo sc s
            { incCounter st0 with stash := some s } rest
          ⟨.yieldStep step :: r.events, r.state, r.rest, r.exit⟩
        | _ => ⟨[.yieldStep step], st0, rest, .badInput⟩
    else
      match st0.stash with
      | some s => applyOrPopTail env repo sc s st0 inp0
      | none => ⟨[], st0, inp0, .badInput⟩

/-- The stash-selection step of the drop chain. -/
def dropPickStep (repo : Repo) (st : WizardState)
    (stashOpt : Option (List Stash)) : StepDesc :=
  { id := .pickStashDrop
    kind := .pick
    title := stashTitle ++ " " ++ getSubtitle st.subcommand ++ dotPad ++ repo.formattedName
    placeholder :=
      match stashOpt with
      | none => repo.formattedName ++ " has no stashes"
      | some _ => "Choose a stash to delete"
    items := stashPickItems stashOpt st.stash }

/-- The (unconditional) confirmation step of the drop chain. -/
def dropConfirmStep (repo : Repo) (st : WizardState) (s : Stash) : StepDesc :=
  { id := .confirmDrop
    kind := .confirm
    title := "Confirm " ++ stashTitle ++ " " ++ getSubtitle st.subcommand ++ dotPad
      ++ repo.formattedName
    placeholder := "Confirm " ++ stashTitle ++ " " ++ getSubtitle st.subcommand
    items :=
      [ { label := stashTitle ++ " " ++ getSubtitle st.subcommand
          description := s.stashName ++ dashPad ++ truncatedMessage s.message
          detail := "Will delete " ++ s.stashName
          picked := false
          payload := .plain } ] }

/-- The drop chain from the point where a stash is selected: the confirmation
step is created and yielded unconditionally (no confirmability gate), then the
terminal `stashDelete` call is issued and the break signal raised. -/
def dropTail (repo : Repo) (s : Stash) (st : WizardState)
    (inp : List Response) : ChainResult :=
  let step := dropConfirmStep repo st s
  match resolvePick step.items inp with
  | .noInput => ⟨[.yieldStep step], st, [], .outOfInputs⟩
  | .badInput rest => ⟨[.yieldStep step], st, rest, .badInput⟩
  | .goBack rest => ⟨[.yieldStep step], decCounter st, rest, .normal⟩
  | .cancel rest => ⟨[.yieldStep step], st, rest, .brk⟩
  | .forward _ rest =>
    ⟨[.yieldStep step, .gitStashDelete repo.path s.stashName],
      incCounter st, rest, .brk⟩

/-- The drop chain (`drop`): select a stash unless already set and advanced
past, then always confirm, then issue the terminal delete and raise break. -/
def dropChain (env : Env) (repo : Repo) (st0 : WizardState)
    (inp0 : List Response) : ChainResult :=
  if st0.stash = none ∨ st0.counter < 3 then
    let stashOpt := env.stashList repo.path
    let step := dropPickStep repo st0 stashOpt
    match resolvePick step.items inp0 with
    | .noInput => ⟨[.yieldStep step], st0, [], .outOfInputs⟩
    | .badInput rest => ⟨[.yieldStep step], st0, rest, .badInput⟩
    | .goBack rest => ⟨[.yieldStep step], decCounter st0, rest, .normal⟩
    | .cancel rest => ⟨[.yieldStep step], st0, rest, .brk⟩
    | .forward it rest =>
      match it.payload with
      | .stash s =>
        let r := dropTail repo s { incCounter st0 with stash := some s } rest
        ⟨.yieldStep step :: r.events, r.state, r.rest, r.exit⟩
      | _ => ⟨[.yieldStep step], st0, rest, .badInput⟩
  else
    match st0.stash with
    | some s => dropTail repo s st0 inp0
    | none => ⟨[], st0, inp0, .badInput⟩

/-- The stash-selection step of the list chain (re-entrant; rows are pre-picked
by comparing refs against the previously inspected stash). -/
def listPickStep (repo : Repo) (st : WizardState) (pickedStash : Option Stash)
    (stashOpt : Option (List Stash)) : StepDesc :=
  { id := .pickStashList
    kind := .pick
    title := stashTitle ++ " " ++ getSubtitle st.subcommand ++ dotPad ++ repo.formattedName
    placeholder :=
      match stashOpt with
      | none => repo.formattedName ++ " has no stashes"
      | some _ => "Choose a stash"
    items :=
      match stashOpt with
      | none => [directiveItem .back true, directiveItem .cancel false]
      | some l =>
        l.map (fun c =>
          commitItem c (match pickedStash with
            | none => false
            | some p => c.ref == p.ref)) }

/-- The secondary menu of the list chain, scoped to one inspected stash
(`CommitQuickPick.getItems`; its rows come from the environment — the commit
quick-pick module is outside the sources in scope). -/
def listActionStep (env : Env) (repo : Repo) (st : WizardState) (s : Stash) : StepDesc :=
  { id := .pickListAction
    kind := .pick
    title := stashTitle ++ " " ++ getSubtitle st.subcommand ++ dotPad ++ repo.formattedName
      ++ dotPad ++ s.ref.take 7
    placeholder := s.message
    items := env.commitActionItems s }

/-- The list chain (`list`): re-entrantly select a stash for inspection, then a
sub-action; executing a `CommandQuickPickItem` raises break, anything else
loops back to the stash selection. -/
def listChain (env : Env) (repo : Repo) :
    Nat → Option Stash → WizardState → List Response → ChainResult
  | 0, _, st, inp => ⟨[], st, inp, .fuelOut⟩
  | fuel + 1, pickedStash, st, inp =>
    let stashOpt := env.stashList repo.path
    let step1 := listPickStep repo st pickedStash stashOpt
    match resolvePick step1.items inp with
    | .noInput => ⟨[.yieldStep step1], st, [], .outOfInputs⟩
    | .badInput rest => ⟨[.yieldStep step1], st, rest, .badInput⟩
    | .goBack rest => ⟨[.yieldStep step1], decCounter st, rest, .normal⟩
    | .cancel rest => ⟨[.yieldStep step1], st, rest, .brk⟩
    | .forward it rest =>
      match it.payload with
      | .stash s =>
        let st1 := incCounter st
        let step2 := listActionStep env repo st1 s
        match resolvePick step2.items rest with
        | .noInput => ⟨[.yieldStep step1, .yieldStep step2], st1, [], .outOfInputs⟩
        | .badInput rest2 => ⟨[.yieldStep step1, .yieldStep step2], st1, rest2, .badInput⟩
        | .goBack rest2 =>
          let r := listChain env repo fuel (some s) (decCounter st1) rest2
          ⟨.yieldStep step1 :: .yieldStep step2 :: r.events, r.state, r.rest, r.exit⟩
        | .cancel rest2 => ⟨[.yieldStep step1, .yieldStep step2], st1, rest2, .brk⟩
        | .forward it2 rest2 =>
          let st2 := incCounter st1
          match it2.payload with
          | .listAction true =>
            ⟨[.yieldStep step1, .yieldStep step2, .executeCommand], st2, rest2, .brk⟩
          | _ =>
            let r := listChain env repo fuel (some s) st2 rest2
            ⟨.yieldStep step1 :: .yieldStep step2 :: r.events, r.state, r.rest, r.exit⟩
      | _ => ⟨[.yieldStep step1], st, rest, .badInput⟩

/-- The free-text message step of the push chain. -/
def pushInputStep (repo : Repo) (st : WizardState) : StepDesc :=
  { id := .inputMessage
    kind := .input
    title := stashTitle ++ " " ++ getSubtitle st.subcommand ++ dotPad ++ repo.formattedName
    placeholder := "Please provide a stash message"
    items := []
    value := st.message }

/-- Modelled from the spec: `FlagsQuickPickItem.create(state.flags, flags, ...)`
(presentation module, not under the sources in scope): a confirmation row
carrying a pre-composed flag bundle. -/
def flagsItem (current fs : List PushFlag) (label description detail : String) : Item :=
  { label := label
    description := description
    detail := detail
    picked := current == fs
    payload := .flags fs }

/-- The detail fragment describing a path-scoped push: the single file's
formatted path when exactly one path is given, otherwise a file count. -/
def pushScopedFiles (us : List String) (repoPath : String) : String :=
  if us.length == 1 then getFormattedPath (us.headD "") repoPath
  else toString us.length ++ " files"

/-- The confirmation step of the push chain: three flag bundles when the
invocation is unscoped, two (no include-untracked) when scoped to file paths. -/
def pushConfirmStep (repo : Repo) (st : WizardState) (m : String)
    (current : List PushFlag) : StepDesc :=
  { id := .confirmPush
    kind := .confirm
    title := "Confirm " ++ stashTitle ++ " " ++ getSubtitle st.subcommand ++ dotPad
      ++ repo.formattedName
    placeholder := "Confirm " ++ stashTitle ++ " " ++ getSubtitle st.subcommand
    items :=
      match st.uris with
      | none =>
        [ flagsItem current [] (stashTitle ++ " " ++ getSubtitle st.subcommand) m
            "Will stash uncommitted changes",
          flagsItem current [.includeUntracked]
            (stashTitle ++ " " ++ getSubtitle st.subcommand ++ " & Include Untracked")
            ("--include-untracked " ++ m)
            "Will stash uncommitted changes, including untracked files",
          flagsItem current [.keepIndex]
            (stashTitle ++ " " ++ getSubtitle st.subcommand ++ " & Keep Staged")
            ("--keep-index " ++ m)
            "Will stash uncommitted changes, but will keep staged files intact" ]
      | some us =>
        if us.isEmpty then
          [ flagsItem current [] (stashTitle ++ " " ++ getSubtitle st.subcommand) m
              "Will stash uncommitted changes",
            flagsItem current [.includeUntracked]
              (stashTitle ++ " " ++ getSubtitle st.subcommand ++ " & Include Untracked")
              ("--include-untracked " ++ m)
              "Will stash uncommitted changes, including untracked files",
            flagsItem current [.keepIndex]
              (stashTitle ++ " " ++ getSubtitle st.subcommand ++ " & Keep Staged")
              ("--keep-index " ++ m)
              "Will stash uncommitted changes, but will keep staged files intact" ]
        else
          [ flagsItem current [] (stashTitle ++ " " ++ getSubtitle st.subcommand) m
              ("Will stash changes in " ++ pushScopedFiles us repo.path),
            flagsItem current [.keepIndex]
              (stashTitle ++ " " ++ getSubtitle st.subcommand ++ " & Keep Staged")
              ("--keep-index " ++ m)
              ("Will stash changes in " ++ pushScopedFiles us repo.path
                ++ ", but will keep staged files intact") ] }

/-- The terminal save of the push chain. -/
def pushSaveEvent (repo : Repo) (m : String) (uris : Option (List String))
    (fs : List PushFlag) : Event :=
  .gitStashSave repo.path m uris (fs.contains .includeUntracked) (fs.contains .keepIndex)

/-- The push chain from the point where a message is present: the gated
confirmation step selecting a flag bundle, then the terminal save and break. -/
def pushTail (env : Env) (repo : Repo) (m : String) (st : WizardState)
    (inp : List Response) : ChainResult :=
  if confirmGate st.subcommand env.skipConfirmPref st.confirm then
    let step := pushConfirmStep repo st m (st.flags.getD [])
    match resolvePick step.items inp with
    | .noInput => ⟨[.yieldStep step], st, [], .outOfInputs⟩
    | .badInput rest => ⟨[.yieldStep step], st, rest, .badInput⟩
    | .goBack rest => ⟨[.yieldStep step], decCounter st, rest, .normal⟩
    | .cancel rest => ⟨[.yieldStep step], st, rest, .brk⟩
    | .forward it rest =>
      match it.payload with
      | .flags fs =>
        let st1 := { incCounter st with flags := some fs }
        ⟨[.yieldStep step, pushSaveEvent repo m st1.uris fs], st1, rest, .brk⟩
      | _ => ⟨[.yieldStep step], st, rest, .badInput⟩
  else
    ⟨[pushSaveEvent repo m st.uris (st.flags.getD [])], st, inp, .brk⟩

/-- The push chain (`push`): initialise flags, collect a message unless one is
already set (the empty string counts as set) and the counter has advanced, then
the gated confirmation, then the terminal save and break. -/
def pushChain (env : Env) (repo : Repo) (st0 : WizardState)
    (inp0 : List Response) : ChainResult :=
  let stf := { st0 with flags := some (st0.flags.getD []) }
  if stf.message = none ∨ stf.counter < 3 then
    let step := pushInputStep repo stf
    match resolveInput inp0 with
    | .noInput => ⟨[.yieldStep step], stf, [], .outOfInputs⟩
    | .badInput rest => ⟨[.yieldStep step], stf, rest, .badInput⟩
    | .goBack rest => ⟨[.yieldStep step], decCounter stf, rest, .normal⟩
    | .cancel rest => ⟨[.yieldStep step], stf, rest, .brk⟩
    | .text s rest =>
      let r := pushTail env repo s { incCounter stf with message := some s } rest
      ⟨.yieldStep step :: r.events, r.state, r.rest, r.exit⟩
  else
    match stf.message with
    | some m => pushTail env repo m stf inp0
    | none => ⟨[], stf, inp0, .badInput⟩

/-- How the wizard invocation ends. -/
inductive Outcome
  /-- The generator returned `undefined`: normal termination (includes the
  caught break signal and back/cancel at the top-level step). -/
  | done
  /-- The response list was exhausted while a step was pending. -/
  | outOfInputs
  /-- A response that the presentation layer can never produce for a step. -/
  | badInput
  /-- Interpreter fuel ran out. -/
  | fuelOut
deriving DecidableEq, Repr

/-- How one phase of the sequencer loop body hands control on. -/
inductive PhaseExit
  /-- Fall through to the next phase of the same pass. -/
  | proceed
  /-- `continue`: restart the sequencer loop from the top. -/
  | retry
  /-- Leave the wizard with the given outcome. -/
  | finish (o : Outcome)
deriving Repr

/-- The result of one sequencer phase. -/
structure PhaseResult where
  events : List Event
  state : WizardState
  rest : List Response
  exit : PhaseExit
deriving Repr

/-- The top-level subcommand-selection step with its five fixed rows. -/
def subcommandStep (st : WizardState) : StepDesc :=
  { id := .pickSubcommand
    kind := .pick
    title := stashTitle
    placeholder := "Choose a stash command"
    items :=
      [ { label := "apply"
          description := "integrates changes from the specified stash into the current branch"
          detail := ""
          picked := st.subcommand == some .apply
          payload := .sub .apply },
        { label := "drop"
          description := "deletes the specified stash"
          detail := ""
          picked := st.subcommand == some .drop
          payload := .sub .drop },
        { label := "list"
          description := "lists the saved stashes"
          detail := ""
          picked := st.subcommand == some .list
          payload := .sub .list },
        { label := "pop"
          description := "integrates changes from the specified stash into the current branch and deletes the stash"
          detail := ""
          picked := st.subcommand == some .pop
          payload := .sub .pop },
        { label := "push"
          description := "saves your local changes to a new stash and discards them from the working tree and index"
          detail := ""
          picked := st.subcommand == some .push
          payload := .sub .push } ] }

/-- The repository-selection step (one row per repository; the active or
previously chosen repository is pre-picked). -/
def repoPickStep (st : WizardState) (active : Option Repo) (repos : List Repo) : StepDesc :=
  { id := .pickRepo
    kind := .pick
    title := stashTitle ++ " " ++ getSubtitle st.subcommand
    placeholder := "Choose a repository"
    items :=
      repos.map (fun r =>
        repositoryItem r (match active with
          | none => false
          | some a => r.id == a.id)) }

/-- Phase (a) of the sequencer loop body: ask for the subcommand when it is
unset or the counter has not advanced past it; back or cancel here ends the
wizard (`break` out of the outer loop / caught break signal). -/
def phaseSubcommand (st : WizardState) (inp : List Response) : PhaseResult :=
  if st.subcommand = none ∨ st.counter < 1 then
    let step := subcommandStep st
    match resolvePick step.items inp with
    | .noInput => ⟨[.yieldStep step], st, [], .finish .outOfInputs⟩
    | .badInput rest => ⟨[.yieldStep step], st, rest, .finish .badInput⟩
    | .goBack rest => ⟨[.yieldStep step], decCounter st, rest, .finish .done⟩
    | .cancel rest => ⟨[.yieldStep step], st, rest, .finish .done⟩
    | .forward it rest =>
      match it.payload with
      | .sub sc => ⟨[.yieldStep step], { incCounter st with subcommand := some sc }, rest, .proceed⟩
      | _ => ⟨[.yieldStep step], st, rest, .finish .badInput⟩
  else ⟨[], st, inp, .proceed⟩

/-- Phase (b) of the sequencer loop body: resolve the repository.  With exactly
one repository it is auto-selected and the counter incremented; otherwise a
pick step is yielded, where back `continue`s to the top of the loop and cancel
ends the wizard. -/
def phaseRepo (env : Env) (st : WizardState) (inp : List Response) : PhaseResult :=
  if st.repo = none ∨ st.counter < 2 then
    match env.repositories with
    | [r] => ⟨[], { incCounter st with repo := some r }, inp, .proceed⟩
    | _ =>
      let active := match st.repo with | some r => some r | none => env.activeRepo
      let step := repoPickStep st active env.repositories
      match resolvePick step.items inp with
      | .noInput => ⟨[.yieldStep step], st, [], .finish .outOfInputs⟩
      | .badInput rest => ⟨[.yieldStep step], st, rest, .finish .badInput⟩
      | .goBack rest => ⟨[.yieldStep step], decCounter st, rest, .retry⟩
      | .cancel rest => ⟨[.yieldStep step], st, rest, .finish .done⟩
      | .forward it rest =>
        match it.payload with
        | .repo r => ⟨[.yieldStep step], { incCounter st with repo := some r }, rest, .proceed⟩
        | _ => ⟨[.yieldStep step], st, rest, .finish .badInput⟩
  else ⟨[], st, inp, .proceed⟩

/-- Dispatch to the subcommand chain matching the active tag. -/
def dispatchChain (env : Env) (fuel : Nat) (sc : Subcommand) (repo : Repo)
    (st : WizardState) (inp : List Response) : ChainResult :=
  match sc with
  | .apply | .pop => applyOrPop env repo st inp
  | .drop => dropChain env repo st inp
  | .list => listChain env repo fuel none st inp
  | .push => pushChain env repo st inp

/-- The result of running the wizard. -/
structure RunResult where
  events : List Event
  state : WizardState
  rest : List Response
  outcome : Outcome
deriving Repr

/-- The state the sequencer loops back with after a chain returned normally:
in the single-repository case the counter is decremented by one
(`if (repos.length === 1) state.counter--`). -/
def afterNormalState (single : Bool) (st : WizardState) : WizardState :=
  if single then { st with counter := st.counter - 1 } else st

/-- What the sequencer does with a finished chain dispatch (the tail of one
loop pass): the break signal is caught and ends the wizard normally
(`if (ex instanceof BreakQuickCommand) break;` yields `return undefined`); a
normal chain return decrements the counter in the single-repository case and
`continue`s to the top of the loop, here represented by the `recur` function;
interpreter-only exits propagate. -/
def afterChain (e1 e2 : List Event) (c : ChainResult) (single : Bool)
    (recur : WizardState → List Response → RunResult) : RunResult :=
  match c.exit with
  | .brk => ⟨e1 ++ e2 ++ c.events, c.state, c.rest, .done⟩
  | .outOfInputs => ⟨e1 ++ e2 ++ c.events, c.state, c.rest, .outOfInputs⟩
  | .badInput => ⟨e1 ++ e2 ++ c.events, c.state, c.rest, .badInput⟩
  | .fuelOut => ⟨e1 ++ e2 ++ c.events, c.state, c.rest, .fuelOut⟩
  | .normal =>
    ⟨e1 ++ e2 ++ c.events ++ (recur (afterNormalState single c.state) c.rest).events,
      (recur (afterNormalState single c.state) c.rest).state,
      (recur (afterNormalState single c.state) c.rest).rest,
      (recur (afterNormalState single c.state) c.rest).outcome⟩

/-- The `steps()` sequencer loop: subcommand phase, repository phase, chain
dispatch; a chain's break signal ends the wizard normally, a normal chain
return decrements the counter in the single-repository case and loops back to
the top. -/
def stepsLoop (env : Env) : Nat → WizardState → List Response → RunResult
  | 0, st, inp => ⟨[], st, inp, .fuelOut⟩
  | fuel + 1, st, inp =>
    match phaseSubcommand st inp with
    | ⟨e1, st1, inp1, .finish o⟩ => ⟨e1, st1, inp1, o⟩
    | ⟨e1, st1, inp1, .retry⟩ =>
      ⟨e1 ++ (stepsLoop env fuel st1 inp1).events, (stepsLoop env fuel st1 inp1).state,
        (stepsLoop env fuel st1 inp1).rest, (stepsLoop env fuel st1 inp1).outcome⟩
    | ⟨e1, st1, inp1, .proceed⟩ =>
      match phaseRepo env st1 inp1 with
      | ⟨e2, st2, inp2, .finish o⟩ => ⟨e1 ++ e2, st2, inp2, o⟩
      | ⟨e2, st2, inp2, .retry⟩ =>
        ⟨e1 ++ e2 ++ (stepsLoop env fuel st2 inp2).events, (stepsLoop env fuel st2 inp2).state,
          (stepsLoop env fuel st2 inp2).rest, (stepsLoop env fuel st2 inp2).outcome⟩
      | ⟨e2, st2, inp2, .proceed⟩ =>
        match st2.repo with
        | none => ⟨e1 ++ e2, st2, inp2, .badInput⟩
        | some repo =>
          match st2.subcommand with
          | none => ⟨e1 ++ e2, st2, inp2, .done⟩
          | some sc =>
            afterChain e1 e2 (dispatchChain env fuel sc repo st2 inp2)
              (env.repositories.length == 1) (stepsLoop env fuel)

/-- Run the wizard as invoked through the constructor: the initial state is the
caller's partial state with the computed initial counter, or `{ counter: 0 }`
when no arguments are supplied. -/
def stashCommandRun (env : Env) (fuel : Nat)
    (args : Option (PartialState × Option Bool)) (inp : List Response) : RunResult :=
  match args with
  | none => stepsLoop env fuel { counter := 0 } inp
  | some (p, c) => stepsLoop env fuel (initState p c) inp

/-- Every event except possibly the last one is a yield (no step descriptor is
produced after a terminal operation has been issued). -/
def terminalOnlyLast : List Event → Bool
  | [] => true
  | [_] => true
  | e :: e2 :: rest => !e.isTerminal && terminalOnlyLast (e2 :: rest)

/-- Every `stashDelete` event in the trace is preceded by a yield of the drop
confirmation step (`seen` records whether one has been seen so far). -/
def deleteNeedsConfirm (seen : Bool) : List Event → Bool
  | [] => true
  | .yieldStep d :: rest => deleteNeedsConfirm (seen || d.id == .confirmDrop) rest
  | .gitStashDelete _ _ :: rest => seen && deleteNeedsConfirm seen rest
  | _ :: rest => deleteNeedsConfirm seen rest

/-- The first yielded step descriptor of a trace, if any. -/
def firstYield : List Event → Option StepDesc
  | [] => none
  | .yieldStep d :: _ => some d
  | _ :: rest => firstYield rest

/-- A concrete repository used in concrete runs. -/
def sampleRepo : Repo := ⟨"r0", "/repo", "myrepo"⟩

/-- A second concrete repository. -/
def sampleRepoB : Repo := ⟨"r1", "/repo2", "other"⟩

/-- A concrete stash entry. -/
def sampleStash : Stash := ⟨"stash@\x7b0\x7d", "work in progress", "abc1234def", "/repo"⟩

/-- A second concrete stash entry. -/
def sampleStashB : Stash := ⟨"stash@\x7b1\x7d", "second stash", "bbb1234def", "/repo"⟩

/-- A concrete single-repository environment with two stashes. -/
def sampleEnv : Env :=
  { repositories := [sampleRepo]
    activeRepo := some sampleRepo
    stashList := fun _ => some [sampleStash, sampleStashB]
    commitActionItems := fun _ => [⟨"Apply Stashed Changes", "", "", false, .listAction true⟩]
    skipConfirmPref := false }

/-- The same environment with an empty stash listing. -/
def emptyStashEnv : Env := { sampleEnv with stashList := fun _ => none }

/-- A stash message longer than 80 characters. -/
def longMessage : String := String.mk (List.replicate 81 'x')

/-- A wizard state positioned at the apply/pop or drop confirmation: the given
verb, repository and stash are set and the counter has advanced past them;
confirmation is forced on by the override. -/
def confirmReadyState (sc : Subcommand) (r : Repo) (s : Stash) : WizardState :=
  { counter := 3
    subcommand := some sc
    repo := some r
    stash := some s
    confirm := some true }

/-- A partial state populating `repo` but not `subcommand` (a gap in step
order). -/
def repoOnlyPartial : PartialState := { repo := some sampleRepo }

/-- Whether a catch result reports to the user and terminates the wizard
(shows a message and then `return undefined`). -/
def CatchResult.isUserReport : CatchResult → Bool
  | .warning _ | .info _ | .genericError _ | .errorMessage _ => true
  | .breakLoop | .rethrow => false

/-!
Theorems: each claim of the specification is settled below; helper lemmas
about the trace predicates and the interpreter come first.
-/

/-- C6 (amended): the constructor's initial counter equals the number of
populated fields among subcommand, repo, and the active subcommand's third
field (stash for apply/drop/pop, message for push), counted independently of
whether earlier fields are populated. -/
theorem C6_initialCounter_counts_populated_fields (p : PartialState) :
    initialCounter p = populatedFieldCount p := by
  rcases p with ⟨sc, r, st, m, u, f⟩
  cases sc with
  | none =>
    cases r <;> simp [initialCounter, populatedFieldCount]
  | some sub =>
    cases sub <;> cases r <;> cases st <;> cases m <;>
      simp [initialCounter, populatedFieldCount]

/-- C6 (counterexample): for a partial state populating `repo` but not
`subcommand`, the computed initial counter is 1 while the number of leading
populated fields in step order is 0 — the claim's leading-fields description
of the counter fails on the code. -/
theorem C6_counterexample_repo_without_subcommand :
    initialCounter repoOnlyPartial = 1 ∧ leadingPopulatedCount repoOnlyPartial = 0 ∧
      initialCounter repoOnlyPartial ≠ leadingPopulatedCount repoOnlyPartial := by
  decide

/-- C2 (amended): for an exception reaching the outer handler while the
apply/pop tag is active, a message containing the full phrase "Your local
changes to the following files would be overwritten by merge" is reported as a
warning; otherwise a message containing both "Auto-merging" and "CONFLICT" is
reported as the informational "Stash applied with conflicts"; any other
message is reported through the generic failure message; in every case the
handler terminates the wizard and never re-raises. -/
theorem C2_applyPop_failure_classification (m : String) (sub : Option Subcommand)
    (hsub : sub = some .apply ∨ sub = some .pop) :
    (jsIncludes m overwritePhrase = true →
      stepsCatchHandler sub (.error m) =
        .warning "Unable to apply stash. Your working tree changes would be overwritten") ∧
    (jsIncludes m overwritePhrase = false →
      (jsIncludes m "Auto-merging" && jsIncludes m "CONFLICT") = true →
      stepsCatchHandler sub (.error m) = .info "Stash applied with conflicts") ∧
    (jsIncludes m overwritePhrase = false →
      (jsIncludes m "Auto-merging" && jsIncludes m "CONFLICT") = false →
      stepsCatchHandler sub (.error m) =
        .genericError ("Unable to apply stash — " ++ collapseNewlines (jsTrim m))) ∧
    stepsCatchHandler sub (.error m) ≠ .rethrow := by
  rcases hsub with h | h <;> subst h <;>
    refine ⟨fun h1 => by simp [stepsCatchHandler, h1],
            fun h1 h2 => by simp [stepsCatchHandler, h1, h2],
            fun h1 h2 => by simp [stepsCatchHandler, h1, h2], ?_⟩ <;>
    · simp only [stepsCatchHandler]
      split
      · simp
      · split <;> simp

/-- C2 (witness): a concrete message containing the full overwrite phrase is
classified as the warning. -/
theorem C2_applyPop_failure_classification_witness :
    stepsCatchHandler (some .apply) (.error overwritePhrase) =
      .warning "Unable to apply stash. Your working tree changes would be overwritten" :=
  (C2_applyPop_failure_classification overwritePhrase (some .apply) (Or.inl rfl)).1 (by decide)

/-- C2 (counterexample): the message "would be overwritten by merge" contains
the substring the claim names, yet the handler classifies it through the
generic failure message, not the warning — the code matches the longer phrase
"Your local changes to the following files would be overwritten by merge". -/
theorem C2_counterexample_short_phrase_not_warning :
    jsIncludes "would be overwritten by merge" "would be overwritten by merge" = true ∧
    stepsCatchHandler (some .apply) (.error "would be overwritten by merge") =
      .genericError "Unable to apply stash — would be overwritten by merge" ∧
    stepsCatchHandler (some .apply) (.error "would be overwritten by merge") ≠
      .warning "Unable to apply stash. Your working tree changes would be overwritten" := by
  decide

/-- C9 (amended): every non-break exception reaching the outer handler while
the apply, pop, drop or push tag is active is reported to the user and
terminates the wizard; an active `list` tag — like an unset tag — falls
through the classification switch and is re-raised to the caller. -/
theorem C9_error_classification_by_tag (m : String) :
    (stepsCatchHandler (some .apply) (.error m)).isUserReport = true ∧
    (stepsCatchHandler (some .pop) (.error m)).isUserReport = true ∧
    (stepsCatchHandler (some .drop) (.error m)).isUserReport = true ∧
    (stepsCatchHandler (some .push) (.error m)).isUserReport = true ∧
    stepsCatchHandler (some .list) (.error m) = .rethrow ∧
    stepsCatchHandler none (.error m) = .rethrow := by
  refine ⟨?_, ?_, rfl, ?_, rfl, rfl⟩ <;>
    · simp only [stepsCatchHandler]
      split
      · rfl
      · first
        | rfl
        | split <;> rfl

/-- C9 (counterexample): the `list` tag is one of the recognized subcommand
tags named by the claim, yet an exception occurring while it is active is
re-raised instead of being classified and reported. -/
theorem C9_counterexample_list_rethrows :
    stepsCatchHandler (some .list) (.error "unexpected failure") = .rethrow ∧
    (stepsCatchHandler (some .list) (.error "unexpected failure")).isUserReport = false := by
  decide

/-- C10: the description shown in both the apply/pop and the drop confirmation
steps embeds the stash message unchanged when it has at most 80 characters and
otherwise its first 80 characters followed by the ellipsis character, while
the state's stored stash (and hence its message) is left untouched by both
confirmation tails. -/
theorem C10_confirm_description_truncation (s : Stash) (r : Repo) (env : Env)
    (sc : Subcommand) (st : WizardState) (inp : List Response) :
    (s.message.length ≤ 80 → truncatedMessage s.message = s.message) ∧
    (s.message.length > 80 →
      truncatedMessage s.message = s.message.take 80 ++ ellipsis) ∧
    (dropConfirmStep r st s).items.map Item.description
      = [s.stashName ++ dashPad ++ truncatedMessage s.message] ∧
    (applyOrPopConfirmStep r sc s).items.map Item.description
      = [s.stashName ++ dashPad ++ truncatedMessage s.message,
         s.stashName ++ dashPad ++ truncatedMessage s.message] ∧
    (dropTail r s st inp).state.stash = st.stash ∧
    (applyOrPopTail env r sc s st inp).state.stash = st.stash := by
  refine ⟨?_, ?_, rfl, rfl, ?_, ?_⟩
  · intro h
    unfold truncatedMessage
    rw [if_neg (by omega)]
  · intro h
    unfold truncatedMessage
    rw [if_pos h]
  · simp only [dropTail]
    split <;> rfl
  · simp only [applyOrPopTail]
    split
    · split <;> try rfl
      split <;> rfl
    · rfl

/-- C10 (witness): for a stash whose 81-character message exceeds the limit,
the shown description text is the 80-character prefix followed by an ellipsis. -/
theorem C10_confirm_description_truncation_witness :
    80 < (Stash.mk "stashLong" longMessage "ref0" "/repo").message.length ∧
    truncatedMessage (Stash.mk "stashLong" longMessage "ref0" "/repo").message
      = longMessage.take 80 ++ ellipsis :=
  ⟨by decide,
    (C10_confirm_description_truncation ⟨"stashLong", longMessage, "ref0", "/repo"⟩
      sampleRepo sampleEnv .drop { counter := 3 } []).2.1 (by decide)⟩

/-- A trace of only non-terminal events trivially satisfies the
terminal-only-last property. -/
theorem tol_of_clean (l : List Event) (h : l.all (fun e => !e.isTerminal) = true) :
    terminalOnlyLast l = true := by
  induction l with
  | nil => rfl
  | cons e rest ih =>
    cases rest with
    | nil => rfl
    | cons e2 rest2 =>
      simp only [List.all_cons, Bool.and_eq_true] at h
      simp only [terminalOnlyLast, Bool.and_eq_true]
      exact ⟨h.1, ih (by simp only [List.all_cons, Bool.and_eq_true]; exact h.2)⟩

/-- Prepending a non-terminal event preserves terminal-only-last. -/
theorem tol_cons (e : Event) (l : List Event) (he : e.isTerminal = false)
    (hl : terminalOnlyLast l = true) : terminalOnlyLast (e :: l) = true := by
  cases l with
  | nil => rfl
  | cons e2 rest =>
    simp only [terminalOnlyLast, Bool.and_eq_true]
    exact ⟨by simp [he], hl⟩

/-- Prepending non-terminal events preserves terminal-only-last. -/
theorem tol_append (a b : List Event) (ha : a.all (fun e => !e.isTerminal) = true)
    (hb : terminalOnlyLast b = true) : terminalOnlyLast (a ++ b) = true := by
  induction a with
  | nil => exact hb
  | cons e rest ih =>
    simp only [List.all_cons, Bool.and_eq_true] at ha
    exact tol_cons e (rest ++ b) (by simpa using ha.1)
      (ih ha.2)

/-- No terminal event occurs in a trace of only non-terminal events. -/
theorem anyTerminal_false_of_clean (l : List Event)
    (h : l.all (fun e => !e.isTerminal) = true) : l.any Event.isTerminal = false := by
  cases hy : l.any Event.isTerminal with
  | false => rfl
  | true =>
    rw [List.any_eq_true] at hy
    rw [List.all_eq_true] at h
    obtain ⟨e, he, ht⟩ := hy
    have := h e he
    rw [ht] at this
    exact absurd this (by simp)

/-- The delete-needs-confirm property is monotone in the seen flag. -/
theorem dnc_mono (l : List Event) (h : deleteNeedsConfirm false l = true) :
    deleteNeedsConfirm true l = true := by
  induction l with
  | nil => rfl
  | cons e rest ih =>
    cases e with
    | yieldStep d =>
      simp only [deleteNeedsConfirm, Bool.false_or, Bool.true_or] at h ⊢
      cases hd : d.id == StepId.confirmDrop with
      | true => rw [hd] at h; exact h
      | false => rw [hd] at h; exact ih h
    | gitStashDelete p n =>
      simp only [deleteNeedsConfirm, Bool.false_and] at h
      exact absurd h (by simp)
    | gitStashApply p n f => exact ih h
    | gitStashSave p m u i k => exact ih h
    | executeCommand => exact ih h

/-- The delete-needs-confirm property composes over concatenation when the
second part already holds with nothing seen. -/
theorem dnc_append (a : List Event) : ∀ (s : Bool) (b : List Event),
    deleteNeedsConfirm s a = true → deleteNeedsConfirm false b = true →
    deleteNeedsConfirm s (a ++ b) = true := by
  induction a with
  | nil =>
    intro s b _ hb
    cases s with
    | false => exact hb
    | true => exact dnc_mono b hb
  | cons e rest ih =>
    intro s b ha hb
    cases e with
    | yieldStep d => exact ih _ b ha hb
    | gitStashDelete p n =>
      simp only [deleteNeedsConfirm, Bool.and_eq_true] at ha ⊢
      exact ⟨ha.1, ih _ b ha.2 hb⟩
    | gitStashApply p n f => exact ih _ b ha hb
    | gitStashSave p m u i k => exact ih _ b ha hb
    | executeCommand => exact ih _ b ha hb

/-- A trace without delete events satisfies delete-needs-confirm for any seen
flag. -/
theorem dnc_of_noDelete (l : List Event) : ∀ s : Bool,
    l.all (fun e => !e.isDelete) = true → deleteNeedsConfirm s l = true := by
  induction l with
  | nil => intro s _; rfl
  | cons e rest ih =>
    intro s h
    simp only [List.all_cons, Bool.and_eq_true] at h
    cases e with
    | yieldStep d => exact ih _ h.2
    | gitStashDelete p n => exact absurd h.1 (by simp [Event.isDelete])
    | gitStashApply p n f => exact ih _ h.2
    | gitStashSave p m u i k => exact ih _ h.2
    | executeCommand => exact ih _ h.2

/-- A trace of only non-terminal events contains no delete events. -/
theorem noDelete_of_clean (l : List Event)
    (h : l.all (fun e => !e.isTerminal) = true) :
    l.all (fun e => !e.isDelete) = true := by
  rw [List.all_eq_true] at h ⊢
  intro e he
  have := h e he
  cases e <;> simp_all [Event.isTerminal, Event.isDelete]

/-- The subcommand phase only yields the subcommand step: its events are
non-terminal and are not repository-step yields. -/
theorem phaseSubcommand_clean (st : WizardState) (inp : List Response) :
    (phaseSubcommand st inp).events.all
      (fun e => !e.isTerminal && !e.isRepoYield) = true := by
  simp only [phaseSubcommand]
  split
  · split <;> first
      | rfl
      | (split <;> rfl)
  · rfl

/-- The repository phase yields at most the repository step: its events are
non-terminal. -/
theorem phaseRepo_notTerminal (env : Env) (st : WizardState) (inp : List Response) :
    (phaseRepo env st inp).events.all (fun e => !e.isTerminal) = true := by
  simp only [phaseRepo]
  split
  · split
    · rfl
    · split <;> first
        | rfl
        | (split <;> rfl)
  · rfl

/-- With exactly one repository the repository phase yields nothing at all. -/
theorem phaseRepo_single_events (env : Env) (r : Repo) (st : WizardState)
    (inp : List Response) (h : env.repositories = [r]) :
    (phaseRepo env st inp).events = [] := by
  simp only [phaseRepo, h]
  split <;> rfl

/-- The apply/pop confirmation tail yields no step after its terminal event,
breaks exactly when a terminal event was issued, and emits neither
repository-step yields nor delete events. -/
theorem applyOrPopTail_wf (env : Env) (r : Repo) (sc : Subcommand) (s : Stash)
    (st : WizardState) (inp : List Response) :
    terminalOnlyLast (applyOrPopTail env r sc s st inp).events = true ∧
    ((applyOrPopTail env r sc s st inp).events.any Event.isTerminal = true →
      (applyOrPopTail env r sc s st inp).exit = .brk) ∧
    (applyOrPopTail env r sc s st inp).events.all
      (fun e => !e.isRepoYield && !e.isDelete) = true := by
  simp only [applyOrPopTail]
  split
  all_goals try split
  all_goals try split
  all_goals first
    | exact ⟨rfl, (fun h => absurd h Bool.false_ne_true), rfl⟩
    | exact ⟨rfl, (fun _ => rfl), rfl⟩

/-- The apply/pop chain yields no step after its terminal event, breaks
exactly when a terminal event was issued, and emits neither repository-step
yields nor delete events. -/
theorem applyOrPop_wf (env : Env) (r : Repo) (st : WizardState) (inp : List Response) :
    terminalOnlyLast (applyOrPop env r st inp).events = true ∧
    ((applyOrPop env r st inp).events.any Event.isTerminal = true →
      (applyOrPop env r st inp).exit = .brk) ∧
    (applyOrPop env r st inp).events.all
      (fun e => !e.isRepoYield && !e.isDelete) = true := by
  simp only [applyOrPop]
  split
  all_goals try split
  all_goals try split
  all_goals try split
  all_goals first
    | exact applyOrPopTail_wf _ _ _ _ _ _
    | exact ⟨rfl, (fun h => absurd h Bool.false_ne_true), rfl⟩
    | exact ⟨rfl, (fun _ => rfl), rfl⟩
    | exact ⟨tol_cons _ _ rfl (applyOrPopTail_wf _ _ _ _ _ _).1,
        (fun h => (applyOrPopTail_wf _ _ _ _ _ _).2.1
          (by simpa [Event.isTerminal] using h)),
        (by simp only [List.all_cons, Bool.and_eq_true]
            exact ⟨⟨rfl, rfl⟩, (applyOrPopTail_wf _ _ _ _ _ _).2.2⟩)⟩

/-- The drop confirmation tail yields no step after its terminal event, breaks
exactly when a terminal event was issued, emits no repository-step yields, and
every delete it issues is preceded by the yielded drop confirmation step. -/
theorem dropTail_wf (r : Repo) (s : Stash) (st : WizardState) (inp : List Response) :
    terminalOnlyLast (dropTail r s st inp).events = true ∧
    ((dropTail r s st inp).events.any Event.isTerminal = true →
      (dropTail r s st inp).exit = .brk) ∧
    (dropTail r s st inp).events.all (fun e => !e.isRepoYield) = true ∧
    deleteNeedsConfirm false (dropTail r s st inp).events = true := by
  simp only [dropTail]
  split
  all_goals first
    | exact ⟨rfl, (fun h => absurd h Bool.false_ne_true), rfl, rfl⟩
    | exact ⟨rfl, (fun _ => rfl), rfl, rfl⟩

/-- The drop chain yields no step after its terminal event, breaks exactly
when a terminal event was issued, emits no repository-step yields, and every
delete it issues is preceded by the yielded drop confirmation step. -/
theorem dropChain_wf (env : Env) (r : Repo) (st : WizardState) (inp : List Response) :
    terminalOnlyLast (dropChain env r st inp).events = true ∧
    ((dropChain env r st inp).events.any Event.isTerminal = true →
      (dropChain env r st inp).exit = .brk) ∧
    (dropChain env r st inp).events.all (fun e => !e.isRepoYield) = true ∧
    deleteNeedsConfirm false (dropChain env r st inp).events = true := by
  simp only [dropChain]
  split
  all_goals try split
  all_goals try split
  all_goals first
    | exact dropTail_wf _ _ _ _
    | exact ⟨rfl, (fun h => absurd h Bool.false_ne_true), rfl, rfl⟩
    | exact ⟨rfl, (fun _ => rfl), rfl, rfl⟩
    | exact ⟨tol_cons _ _ rfl (dropTail_wf _ _ _ _).1,
        (fun h => (dropTail_wf _ _ _ _).2.1
          (by simpa [Event.isTerminal] using h)),
        (by simp only [List.all_cons, Bool.and_eq_true]
            exact ⟨rfl, (dropTail_wf _ _ _ _).2.2.1⟩),
        (dropTail_wf _ _ _ _).2.2.2⟩

/-- The push confirmation tail yields no step after its terminal event, breaks
exactly when a terminal event was issued, and emits neither repository-step
yields nor delete events. -/
theorem pushTail_wf (env : Env) (r : Repo) (m : String) (st : WizardState)
    (inp : List Response) :
    terminalOnlyLast (pushTail env r m st inp).events = true ∧
    ((pushTail env r m st inp).events.any Event.isTerminal = true →
      (pushTail env r m st inp).exit = .brk) ∧
    (pushTail env r m st inp).events.all
      (fun e => !e.isRepoYield && !e.isDelete) = true := by
  simp only [pushTail]
  split
  all_goals try split
  all_goals try split
  all_goals first
    | exact ⟨rfl, (fun h => absurd h Bool.false_ne_true), rfl⟩
    | exact ⟨rfl, (fun _ => rfl), rfl⟩

/-- The push chain yields no step after its terminal event, breaks exactly
when a terminal event was issued, and emits neither repository-step yields nor
delete events. -/
theorem pushChain_wf (env : Env) (r : Repo) (st : WizardState) (inp : List Response) :
    terminalOnlyLast (pushChain env r st inp).events = true ∧
    ((pushChain env r st inp).events.any Event.isTerminal = true →
      (pushChain env r st inp).exit = .brk) ∧
    (pushChain env r st inp).events.all
      (fun e => !e.isRepoYield && !e.isDelete) = true := by
  simp only [pushChain]
  split
  all_goals try split
  all_goals first
    | exact pushTail_wf _ _ _ _ _
    | exact ⟨rfl, (fun h => absurd h Bool.false_ne_true), rfl⟩
    | exact ⟨rfl, (fun _ => rfl), rfl⟩
    | exact ⟨tol_cons _ _ rfl (pushTail_wf _ _ _ _ _).1,
        (fun h => (pushTail_wf _ _ _ _ _).2.1
          (by simpa [Event.isTerminal] using h)),
        (by simp only [List.all_cons, Bool.and_eq_true]
            exact ⟨⟨rfl, rfl⟩, (pushTail_wf _ _ _ _ _).2.2⟩)⟩

/-- The list chain yields no step after its terminal event, breaks exactly
when a terminal event was issued, and emits neither repository-step yields nor
delete events. -/
theorem listChain_wf (env : Env) (repo : Repo) : ∀ (fuel : Nat) (ps : Option Stash)
    (st : WizardState) (inp : List Response),
    terminalOnlyLast (listChain env repo fuel ps st inp).events = true ∧
    ((listChain env repo fuel ps st inp).events.any Event.isTerminal = true →
      (listChain env repo fuel ps st inp).exit = .brk) ∧
    (listChain env repo fuel ps st inp).events.all
      (fun e => !e.isRepoYield && !e.isDelete) = true := by
  intro fuel
  induction fuel with
  | zero => intro ps st inp; exact ⟨rfl, (fun h => absurd h Bool.false_ne_true), rfl⟩
  | succ n ih =>
    intro ps st inp
    simp only [listChain]
    split
    all_goals try split
    all_goals try split
    all_goals try split
    all_goals first
      | exact ⟨rfl, (fun h => absurd h Bool.false_ne_true), rfl⟩
      | exact ⟨rfl, (fun _ => rfl), rfl⟩
      | exact ⟨tol_cons _ _ rfl (tol_cons _ _ rfl (ih _ _ _).1),
          (fun h => (ih _ _ _).2.1 (by simpa [Event.isTerminal] using h)),
          (by simp only [List.all_cons, Bool.and_eq_true]
              exact ⟨⟨rfl, rfl⟩, ⟨rfl, rfl⟩, (ih _ _ _).2.2⟩)⟩

/-- Split a conjunctive `all` over a trace into its two component `all`s. -/
theorem all_and_split (l : List Event) (p q : Event → Bool)
    (h : l.all (fun e => p e && q e) = true) : l.all p = true ∧ l.all q = true := by
  simp only [List.all_eq_true, Bool.and_eq_true] at h
  exact ⟨List.all_eq_true.mpr (fun e he => (h e he).1),
    List.all_eq_true.mpr (fun e he => (h e he).2)⟩

/-- A trace with no terminal event consists of non-terminal events. -/
theorem clean_of_anyTerminal_false (l : List Event)
    (h : l.any Event.isTerminal = false) : l.all (fun e => !e.isTerminal) = true := by
  rw [List.all_eq_true]
  intro e he
  cases ht : e.isTerminal with
  | false => simp [ht]
  | true =>
    have hy : l.any Event.isTerminal = true := List.any_eq_true.mpr ⟨e, he, ht⟩
    rw [h] at hy
    exact absurd hy Bool.false_ne_true

/-- Concatenation preserves an `all` property of traces. -/
theorem all_append_of (p : Event → Bool) (a b : List Event)
    (ha : a.all p = true) (hb : b.all p = true) : (a ++ b).all p = true := by
  rw [List.all_append, ha, hb]
  rfl

/-- Every chain dispatch yields no step after its terminal event, breaks
exactly when a terminal event was issued, emits no repository-step yields, and
precedes every delete by the drop confirmation step. -/
theorem dispatchChain_wf (env : Env) (fuel : Nat) (sc : Subcommand) (repo : Repo)
    (st : WizardState) (inp : List Response) :
    terminalOnlyLast (dispatchChain env fuel sc repo st inp).events = true ∧
    ((dispatchChain env fuel sc repo st inp).events.any Event.isTerminal = true →
      (dispatchChain env fuel sc repo st inp).exit = .brk) ∧
    (dispatchChain env fuel sc repo st inp).events.all (fun e => !e.isRepoYield) = true ∧
    deleteNeedsConfirm false (dispatchChain env fuel sc repo st inp).events = true := by
  cases sc with
  | apply =>
    obtain ⟨h1, h2, h3⟩ := applyOrPop_wf env repo st inp
    obtain ⟨hr, hd⟩ := all_and_split _ _ _ h3
    exact ⟨h1, h2, hr, dnc_of_noDelete _ false hd⟩
  | pop =>
    obtain ⟨h1, h2, h3⟩ := applyOrPop_wf env repo st inp
    obtain ⟨hr, hd⟩ := all_and_split _ _ _ h3
    exact ⟨h1, h2, hr, dnc_of_noDelete _ false hd⟩
  | drop => exact dropChain_wf env repo st inp
  | list =>
    obtain ⟨h1, h2, h3⟩ := listChain_wf env repo fuel none st inp
    obtain ⟨hr, hd⟩ := all_and_split _ _ _ h3
    exact ⟨h1, h2, hr, dnc_of_noDelete _ false hd⟩
  | push =>
    obtain ⟨h1, h2, h3⟩ := pushChain_wf env repo st inp
    obtain ⟨hr, hd⟩ := all_and_split _ _ _ h3
    exact ⟨h1, h2, hr, dnc_of_noDelete _ false hd⟩

/-- The post-chain tail of a sequencer pass preserves break isolation: no step
descriptor follows a terminal event, and if a terminal event was issued the
wizard ends with the normal-termination outcome. -/
theorem afterChain_wf (e1 e2 : List Event) (c : ChainResult) (single : Bool)
    (recur : WizardState → List Response → RunResult)
    (he1 : e1.all (fun e => !e.isTerminal) = true)
    (he2 : e2.all (fun e => !e.isTerminal) = true)
    (hc1 : terminalOnlyLast c.events = true)
    (hc2 : c.events.any Event.isTerminal = true → c.exit = .brk)
    (hrec : ∀ st inp, terminalOnlyLast (recur st inp).events = true ∧
      ((recur st inp).events.any Event.isTerminal = true →
        (recur st inp).outcome = .done)) :
    terminalOnlyLast (afterChain e1 e2 c single recur).events = true ∧
    ((afterChain e1 e2 c single recur).events.any Event.isTerminal = true →
      (afterChain e1 e2 c single recur).outcome = .done) := by
  unfold afterChain
  split
  · exact ⟨tol_append _ _ (all_append_of _ _ _ he1 he2) hc1, (fun _ => rfl)⟩
  all_goals rename_i hexit
  case h_5 =>
    have hany : c.events.any Event.isTerminal = false := by
      cases hca : c.events.any Event.isTerminal with
      | false => rfl
      | true => rw [hc2 hca] at hexit; exact absurd hexit (by simp)
    have hclean := clean_of_anyTerminal_false _ hany
    refine ⟨tol_append _ _ (all_append_of _ _ _ (all_append_of _ _ _ he1 he2) hclean)
      (hrec _ _).1, fun h => ?_⟩
    simp only [List.any_append, anyTerminal_false_of_clean _ he1,
      anyTerminal_false_of_clean _ he2, hany, Bool.false_or] at h
    exact (hrec _ _).2 h
  all_goals {
    have hany : c.events.any Event.isTerminal = false := by
      cases hca : c.events.any Event.isTerminal with
      | false => rfl
      | true => rw [hc2 hca] at hexit; exact absurd hexit (by simp)
    have hclean := clean_of_anyTerminal_false _ hany
    refine ⟨tol_append _ _ (all_append_of _ _ _ he1 he2) (tol_of_clean _ hclean),
      fun h => ?_⟩
    simp only [List.any_append, anyTerminal_false_of_clean _ he1,
      anyTerminal_false_of_clean _ he2, hany, Bool.false_or] at h
    exact absurd h Bool.false_ne_true }

/-- The post-chain tail of a sequencer pass preserves any per-event property
shared by the prefix events, the chain events, and the recursive run. -/
theorem afterChain_all (p : Event → Bool) (e1 e2 : List Event) (c : ChainResult)
    (single : Bool) (recur : WizardState → List Response → RunResult)
    (h1 : e1.all p = true) (h2 : e2.all p = true) (h3 : c.events.all p = true)
    (hrec : ∀ st inp, (recur st inp).events.all p = true) :
    (afterChain e1 e2 c single recur).events.all p = true := by
  unfold afterChain
  split <;> simp [List.all_append, h1, h2, h3, hrec]

/-- The post-chain tail of a sequencer pass preserves the delete-needs-confirm
property. -/
theorem afterChain_dnc (e1 e2 : List Event) (c : ChainResult) (single : Bool)
    (recur : WizardState → List Response → RunResult)
    (h1 : e1.all (fun e => !e.isDelete) = true)
    (h2 : e2.all (fun e => !e.isDelete) = true)
    (h3 : deleteNeedsConfirm false c.events = true)
    (hrec : ∀ st inp, deleteNeedsConfirm false (recur st inp).events = true) :
    deleteNeedsConfirm false (afterChain e1 e2 c single recur).events = true := by
  unfold afterChain
  split <;> first
    | exact dnc_append _ _ _
        (dnc_append _ _ _ (dnc_of_noDelete _ _ h1) (dnc_of_noDelete _ _ h2)) h3
    | exact dnc_append _ _ _
        (dnc_append _ _ _
          (dnc_append _ _ _ (dnc_of_noDelete _ _ h1) (dnc_of_noDelete _ _ h2)) h3)
        (hrec _ _)

/-- Break isolation of the full sequencer: in every run, no step descriptor
follows a terminal operation, and an issued terminal operation always ends the
run with the normal-termination outcome. -/
theorem stepsLoop_break_isolation (env : Env) : ∀ (fuel : Nat) (st : WizardState)
    (inp : List Response),
    terminalOnlyLast (stepsLoop env fuel st inp).events = true ∧
    ((stepsLoop env fuel st inp).events.any Event.isTerminal = true →
      (stepsLoop env fuel st inp).outcome = .done) := by
  intro fuel
  induction fuel with
  | zero => intro st inp; exact ⟨rfl, (fun h => absurd h Bool.false_ne_true)⟩
  | succ n ih =>
    intro st inp
    simp only [stepsLoop]
    split
    case _ e1 st1 inp1 o hps =>
      have hs1 : e1.all (fun e => !e.isTerminal) = true := by
        have h := (all_and_split _ _ _ (phaseSubcommand_clean st inp)).1
        rw [hps] at h
        exact h
      exact ⟨tol_of_clean _ hs1, fun h => by
        rw [anyTerminal_false_of_clean _ hs1] at h
        exact absurd h Bool.false_ne_true⟩
    case _ e1 st1 inp1 hps =>
      have hs1 : e1.all (fun e => !e.isTerminal) = true := by
        have h := (all_and_split _ _ _ (phaseSubcommand_clean st inp)).1
        rw [hps] at h
        exact h
      refine ⟨tol_append _ _ hs1 (ih st1 inp1).1, fun h => ?_⟩
      rw [List.any_append, anyTerminal_false_of_clean _ hs1, Bool.false_or] at h
      exact (ih st1 inp1).2 h
    case _ e1 st1 inp1 hps =>
      have hs1 : e1.all (fun e => !e.isTerminal) = true := by
        have h := (all_and_split _ _ _ (phaseSubcommand_clean st inp)).1
        rw [hps] at h
        exact h
      split
      case _ e2 st2 inp2 o hpr =>
        have hr2 : e2.all (fun e => !e.isTerminal) = true := by
          have h := phaseRepo_notTerminal env st1 inp1
          rw [hpr] at h
          exact h
        refine ⟨tol_append _ _ hs1 (tol_of_clean _ hr2), fun h => ?_⟩
        simp only [List.any_append, anyTerminal_false_of_clean _ hs1,
          anyTerminal_false_of_clean _ hr2, Bool.false_or] at h
        exact absurd h Bool.false_ne_true
      case _ e2 st2 inp2 hpr =>
        have hr2 : e2.all (fun e => !e.isTerminal) = true := by
          have h := phaseRepo_notTerminal env st1 inp1
          rw [hpr] at h
          exact h
        refine ⟨tol_append _ _ (all_append_of _ _ _ hs1 hr2) (ih st2 inp2).1,
          fun h => ?_⟩
        simp only [List.any_append, anyTerminal_false_of_clean _ hs1,
          anyTerminal_false_of_clean _ hr2, Bool.false_or] at h
        exact (ih st2 inp2).2 h
      case _ e2 st2 inp2 hpr =>
        have hr2 : e2.all (fun e => !e.isTerminal) = true := by
          have h := phaseRepo_notTerminal env st1 inp1
          rw [hpr] at h
          exact h
        split
        case _ hrepo =>
          refine ⟨tol_append _ _ hs1 (tol_of_clean _ hr2), fun h => ?_⟩
          simp only [List.any_append, anyTerminal_false_of_clean _ hs1,
            anyTerminal_false_of_clean _ hr2, Bool.false_or] at h
          exact absurd h Bool.false_ne_true
        case _ repo hrepo =>
          split
          case _ hsub =>
            exact ⟨tol_append _ _ hs1 (tol_of_clean _ hr2), fun _ => rfl⟩
          case _ sc hsub =>
            obtain ⟨hc1, hc2, _, _⟩ := dispatchChain_wf env n sc repo st2 inp2
            exact afterChain_wf _ _ _ _ _ hs1 hr2 hc1 hc2 ih

/-- Delete-needs-confirm for the full sequencer: in every run, every issued
`stashDelete` is preceded by a yielded drop confirmation step. -/
theorem stepsLoop_deleteNeedsConfirm (env : Env) : ∀ (fuel : Nat) (st : WizardState)
    (inp : List Response),
    deleteNeedsConfirm false (stepsLoop env fuel st inp).events = true := by
  intro fuel
  induction fuel with
  | zero => intro st inp; rfl
  | succ n ih =>
    intro st inp
    have hsc := phaseSubcommand_clean st inp
    simp only [stepsLoop]
    split
    case _ e1 st1 inp1 o hps =>
      have hs1 : e1.all (fun e => !e.isTerminal) = true := by
        have h := (all_and_split _ _ _ hsc).1
        rw [hps] at h
        exact h
      exact dnc_of_noDelete _ _ (noDelete_of_clean _ hs1)
    case _ e1 st1 inp1 hps =>
      have hs1 : e1.all (fun e => !e.isTerminal) = true := by
        have h := (all_and_split _ _ _ hsc).1
        rw [hps] at h
        exact h
      exact dnc_append _ _ _ (dnc_of_noDelete _ _ (noDelete_of_clean _ hs1)) (ih st1 inp1)
    case _ e1 st1 inp1 hps =>
      have hs1 : e1.all (fun e => !e.isTerminal) = true := by
        have h := (all_and_split _ _ _ hsc).1
        rw [hps] at h
        exact h
      split
      case _ e2 st2 inp2 o hpr =>
        have hr2 : e2.all (fun e => !e.isTerminal) = true := by
          have h := phaseRepo_notTerminal env st1 inp1
          rw [hpr] at h
          exact h
        exact dnc_append _ _ _ (dnc_of_noDelete _ _ (noDelete_of_clean _ hs1))
          (dnc_of_noDelete _ _ (noDelete_of_clean _ hr2))
      case _ e2 st2 inp2 hpr =>
        have hr2 : e2.all (fun e => !e.isTerminal) = true := by
          have h := phaseRepo_notTerminal env st1 inp1
          rw [hpr] at h
          exact h
        exact dnc_append _ _ _
          (dnc_append _ _ _ (dnc_of_noDelete _ _ (noDelete_of_clean _ hs1))
            (dnc_of_noDelete _ _ (noDelete_of_clean _ hr2)))
          (ih st2 inp2)
      case _ e2 st2 inp2 hpr =>
        have hr2 : e2.all (fun e => !e.isTerminal) = true := by
          have h := phaseRepo_notTerminal env st1 inp1
          rw [hpr] at h
          exact h
        split
        case _ hrepo =>
          exact dnc_append _ _ _ (dnc_of_noDelete _ _ (noDelete_of_clean _ hs1))
            (dnc_of_noDelete _ _ (noDelete_of_clean _ hr2))
        case _ repo hrepo =>
          split
          case _ hsub =>
            exact dnc_append _ _ _ (dnc_of_noDelete _ _ (noDelete_of_clean _ hs1))
              (dnc_of_noDelete _ _ (noDelete_of_clean _ hr2))
          case _ sc hsub =>
            obtain ⟨_, _, _, hc4⟩ := dispatchChain_wf env n sc repo st2 inp2
            exact afterChain_dnc _ _ _ _ _ (noDelete_of_clean _ hs1)
              (noDelete_of_clean _ hr2) hc4 ih

/-- Single-repository runs of the full sequencer never yield the
repository-selection step. -/
theorem stepsLoop_noRepoYield (env : Env) (r : Repo) (hrep : env.repositories = [r]) :
    ∀ (fuel : Nat) (st : WizardState) (inp : List Response),
    (stepsLoop env fuel st inp).events.all (fun e => !e.isRepoYield) = true := by
  intro fuel
  induction fuel with
  | zero => intro st inp; rfl
  | succ n ih =>
    intro st inp
    simp only [stepsLoop]
    split
    case _ e1 st1 inp1 o hps =>
      have hs1 : e1.all (fun e => !e.isRepoYield) = true := by
        have h := (all_and_split _ _ _ (phaseSubcommand_clean st inp)).2
        rw [hps] at h
        exact h
      exact hs1
    case _ e1 st1 inp1 hps =>
      have hs1 : e1.all (fun e => !e.isRepoYield) = true := by
        have h := (all_and_split _ _ _ (phaseSubcommand_clean st inp)).2
        rw [hps] at h
        exact h
      rw [List.all_append, hs1, ih st1 inp1]
      rfl
    case _ e1 st1 inp1 hps =>
      have hs1 : e1.all (fun e => !e.isRepoYield) = true := by
        have h := (all_and_split _ _ _ (phaseSubcommand_clean st inp)).2
        rw [hps] at h
        exact h
      split
      case _ e2 st2 inp2 o hpr =>
        have he2 : e2 = [] := by
          have h := phaseRepo_single_events env r st1 inp1 hrep
          rw [hpr] at h
          exact h
        subst he2
        rw [List.all_append, hs1]
        rfl
      case _ e2 st2 inp2 hpr =>
        have he2 : e2 = [] := by
          have h := phaseRepo_single_events env r st1 inp1 hrep
          rw [hpr] at h
          exact h
        subst he2
        simp [List.all_append, hs1, ih st2 inp2]
      case _ e2 st2 inp2 hpr =>
        have he2 : e2 = [] := by
          have h := phaseRepo_single_events env r st1 inp1 hrep
          rw [hpr] at h
          exact h
        subst he2
        split
        case _ hrepo =>
          rw [List.all_append, hs1]
          rfl
        case _ repo hrepo =>
          split
          case _ hsub =>
            rw [List.all_append, hs1]
            rfl
          case _ sc hsub =>
            obtain ⟨_, _, hc3, _⟩ := dispatchChain_wf env n sc repo st2 inp2
            exact afterChain_all _ _ _ _ _ _ hs1 rfl hc3 ih

/-- C1: the confirmation-skip capability is denied whenever the active
subcommand is `drop` regardless of what the base engine would allow, and in
every wizard run — whatever the remembered skip preference or confirm override
held in the state — every terminal `stashDelete` call is preceded by a yield
of the drop confirmation step to the presentation layer. -/
theorem C1_drop_confirmation_never_skipped :
    (∀ base : Bool, canSkipConfirm (some .drop) base = false) ∧
    (∀ (env : Env) (fuel : Nat) (st : WizardState) (inp : List Response),
      deleteNeedsConfirm false (stepsLoop env fuel st inp).events = true) :=
  ⟨fun _ => rfl, fun env fuel st inp => stepsLoop_deleteNeedsConfirm env fuel st inp⟩

/-- C3: in every wizard run no step descriptor is yielded after a terminal
operation has been issued, a run that issued a terminal operation ends with
the normal-termination outcome, and the outermost handler classifies the break
signal as loop termination, not as an error. -/
theorem C3_break_signal_isolation (env : Env) (fuel : Nat) (st : WizardState)
    (inp : List Response) :
    terminalOnlyLast (stepsLoop env fuel st inp).events = true ∧
    ((stepsLoop env fuel st inp).events.any Event.isTerminal = true →
      (stepsLoop env fuel st inp).outcome = .done) ∧
    (∀ sub : Option Subcommand, stepsCatchHandler sub .brk = .breakLoop) :=
  ⟨(stepsLoop_break_isolation env fuel st inp).1,
   (stepsLoop_break_isolation env fuel st inp).2,
   fun _ => rfl⟩

/-- C3 (witness): a concrete pre-seeded drop run issues its terminal delete
and ends with the normal-termination outcome. -/
theorem C3_break_signal_isolation_witness :
    (stepsLoop sampleEnv 10 (initState { subcommand := some .drop } none)
      [.pick 0, .pick 0]).events.any Event.isTerminal = true ∧
    (stepsLoop sampleEnv 10 (initState { subcommand := some .drop } none)
      [.pick 0, .pick 0]).outcome = .done :=
  ⟨by decide,
   (C3_break_signal_isolation sampleEnv 10 (initState { subcommand := some .drop } none)
     [.pick 0, .pick 0]).2.1 (by decide)⟩

/-- C5: with exactly one repository the repository-selection step is never
yielded in any run; when the repository is still to be resolved the phase
auto-selects the single repository and increments the counter by one; and in a
concrete single-repository run, going back from the first chain step re-lands
on the subcommand step (the step preceding the absent repository step), the
counter having returned to zero — the auto-select increment and the
post-chain decrement cancel out. -/
theorem C5_single_repository_autoselect (env : Env) (r : Repo) (fuel : Nat)
    (st : WizardState) (inp : List Response) (hrep : env.repositories = [r]) :
    (stepsLoop env fuel st inp).events.all (fun e => !e.isRepoYield) = true ∧
    ((st.repo = none ∨ st.counter < 2) →
      phaseRepo env st inp = ⟨[], { incCounter st with repo := some r }, inp, .proceed⟩) ∧
    (stepsLoop sampleEnv 5 (initState { subcommand := some .apply } none)
        [.back]).events.map Event.stepId =
      [some .pickStashApplyPop, some .pickSubcommand] ∧
    (stepsLoop sampleEnv 5 (initState { subcommand := some .apply } none)
        [.back]).state.counter = 0 ∧
    (∀ st' : WizardState, afterNormalState (env.repositories.length == 1) st' =
      { st' with counter := st'.counter - 1 }) := by
  refine ⟨stepsLoop_noRepoYield env r hrep fuel st inp, fun hc => ?_, by decide, by decide,
    fun st' => by rw [hrep]; rfl⟩
  simp only [phaseRepo, hrep]
  rw [if_pos hc]

/-- C5 (witness): in a concrete single-repository drop run the
repository-selection step is never yielded, and the auto-selecting phase
increments the counter. -/
theorem C5_single_repository_autoselect_witness :
    (stepsLoop sampleEnv 10 (initState { subcommand := some .drop } none)
      [.pick 0, .pick 0]).events.all (fun e => !e.isRepoYield) = true ∧
    phaseRepo sampleEnv { counter := 1, subcommand := some .drop } [] =
      ⟨[], { counter := 2, subcommand := some .drop, repo := some sampleRepo }, [],
        .proceed⟩ :=
  ⟨(C5_single_repository_autoselect sampleEnv sampleRepo 10
      (initState { subcommand := some .drop } none) [.pick 0, .pick 0] rfl).1,
   (C5_single_repository_autoselect sampleEnv sampleRepo 0
      { counter := 1, subcommand := some .drop } [] rfl).2.1 (Or.inl rfl)⟩

/-- C7 (amended): for the apply/pop, drop and list chains, an empty changeset
listing makes the changeset-pick step's item list exactly the Back and Cancel
sentinel directives; on a concrete empty-listing list run, selecting the Back
directive does not end the wizard but re-enters the previous step (the
subcommand step here), while selecting the Cancel directive ends the wizard —
in both cases without any terminal call. -/
theorem C7_empty_listing_directives (env : Env) (repo : Repo) (st : WizardState)
    (inp : List Response) (h : env.stashList repo.path = none)
    (hstash : st.stash = none) :
    (st.subcommand = some .apply →
      firstYield (applyOrPop env repo st inp).events =
        some (applyOrPopPickStep repo st none)) ∧
    firstYield (dropChain env repo st inp).events = some (dropPickStep repo st none) ∧
    (∀ fuel : Nat, firstYield (listChain env repo (fuel + 1) none st inp).events =
      some (listPickStep repo st none none)) ∧
    (applyOrPopPickStep repo st none).items =
      [directiveItem .back true, directiveItem .cancel false] ∧
    (dropPickStep repo st none).items =
      [directiveItem .back true, directiveItem .cancel false] ∧
    (listPickStep repo st none none).items =
      [directiveItem .back true, directiveItem .cancel false] ∧
    (stepsLoop emptyStashEnv 5 (initState { subcommand := some .list } none)
        [.pick 0]).events.map Event.stepId =
      [some .pickStashList, some .pickSubcommand] ∧
    (stepsLoop emptyStashEnv 5 (initState { subcommand := some .list } none)
        [.pick 0]).events.all (fun e => !e.isTerminal) = true ∧
    (stepsLoop emptyStashEnv 5 (initState { subcommand := some .list } none)
        [.pick 1]).outcome = .done ∧
    (stepsLoop emptyStashEnv 5 (initState { subcommand := some .list } none)
        [.pick 1]).events.all (fun e => !e.isTerminal) = true := by
  refine ⟨?_, ?_, ?_, rfl, rfl, rfl, by decide, by decide, by decide, by decide⟩
  · intro hsub
    simp only [applyOrPop, hsub]
    rw [if_pos (Or.inl hstash)]
    simp only [h]
    split <;> first
      | rfl
      | (split <;> rfl)
  · simp only [dropChain]
    rw [if_pos (Or.inl hstash)]
    simp only [h]
    split <;> first
      | rfl
      | (split <;> rfl)
  · intro fuel
    simp only [listChain, h]
    split <;> first
      | rfl
      | (split <;> first
          | rfl
          | (split <;> first
              | rfl
              | (split <;> rfl)))

/-- C7 (witness): the drop chain over a concrete empty listing yields the pick
step whose items are exactly the Back and Cancel directives. -/
theorem C7_empty_listing_directives_witness :
    firstYield (dropChain emptyStashEnv sampleRepo
      { counter := 2, subcommand := some .drop, repo := some sampleRepo } []).events =
      some (dropPickStep sampleRepo
        { counter := 2, subcommand := some .drop, repo := some sampleRepo } none) :=
  (C7_empty_listing_directives emptyStashEnv sampleRepo
    { counter := 2, subcommand := some .drop, repo := some sampleRepo } [] rfl rfl).2.1

/-- C7 (counterexample): on the concrete empty-listing list run, selecting the
Back directive does not end the wizard — another step descriptor (the
subcommand step) is yielded afterwards and the run is left waiting for further
input, contradicting the claim that selecting Back ends the wizard. -/
theorem C7_counterexample_back_continues_wizard :
    (stepsLoop emptyStashEnv 5 (initState { subcommand := some .list } none)
        [.pick 0]).events.map Event.stepId =
      [some .pickStashList, some .pickSubcommand] ∧
    (stepsLoop emptyStashEnv 5 (initState { subcommand := some .list } none)
        [.pick 0]).outcome ≠ .done := by
  decide

/-- C4: the apply/pop confirmation menu offers the requested verb first and
its inverted counterpart second (Pop when entered as apply, Apply when entered
as pop), and the selected option's verb overwrites the state's subcommand tag
before the terminal call, so `stashApply` is issued with the delete-after flag
exactly when the finally selected verb is pop — in particular a chain entered
as apply whose inverted option is selected issues the terminal call with
delete-after set, and vice versa. -/
theorem C4_confirm_offers_inverted_verb (env : Env) (r : Repo) (s : Stash) :
    (applyOrPopConfirmStep r .apply s).items.map Item.payload
      = [.verb .apply, .verb .pop] ∧
    (applyOrPopConfirmStep r .pop s).items.map Item.payload
      = [.verb .pop, .verb .apply] ∧
    applyOrPop env r (confirmReadyState .apply r s) [.pick 0] =
      ⟨[.yieldStep (applyOrPopConfirmStep r .apply s),
        .gitStashApply r.path s.stashName false],
       { counter := 4, subcommand := some .apply, repo := some r, stash := some s,
         confirm := some true }, [], .brk⟩ ∧
    applyOrPop env r (confirmReadyState .apply r s) [.pick 1] =
      ⟨[.yieldStep (applyOrPopConfirmStep r .apply s),
        .gitStashApply r.path s.stashName true],
       { counter := 4, subcommand := some .pop, repo := some r, stash := some s,
         confirm := some true }, [], .brk⟩ ∧
    applyOrPop env r (confirmReadyState .pop r s) [.pick 0] =
      ⟨[.yieldStep (applyOrPopConfirmStep r .pop s),
        .gitStashApply r.path s.stashName true],
       { counter := 4, subcommand := some .pop, repo := some r, stash := some s,
         confirm := some true }, [], .brk⟩ ∧
    applyOrPop env r (confirmReadyState .pop r s) [.pick 1] =
      ⟨[.yieldStep (applyOrPopConfirmStep r .pop s),
        .gitStashApply r.path s.stashName false],
       { counter := 4, subcommand := some .apply, repo := some r, stash := some s,
         confirm := some true }, [], .brk⟩ :=
  ⟨rfl, rfl, rfl, rfl, rfl, rfl⟩

/-- C8: a push invocation pre-seeded with the empty-string message and a
single-path scope has initial counter 2 (the empty string counts as set, while
an unset message is not counted), and — with a single repository, so the
counter reaches 3 — its first pass never yields the message step and goes
straight to the confirmation step, which offers exactly two flag bundles (the
plain push and keep-index; no include-untracked bundle) whose details embed
the single file's formatted path. -/
theorem C8_push_preseeded_empty_message_scoped (u : String) (r : Repo)
    (slf : String → Option (List Stash)) (act : Option Repo)
    (pref : Bool) (ai : Stash → List Item) :
    initialCounter { subcommand := some .push, message := some "", uris := some [u] } = 2 ∧
    initialCounter { subcommand := some .push, message := none, uris := some [u] } = 1 ∧
    (stashCommandRun ⟨[r], act, slf, ai, pref⟩ 1
        (some ({ subcommand := some .push, message := some "", uris := some [u] }, some true))
        []).events =
      [.yieldStep (pushConfirmStep r
        { counter := 3, subcommand := some .push, repo := some r, message := some "",
          uris := some [u], flags := some [], confirm := some true } "" [])] ∧
    (stashCommandRun ⟨[r], act, slf, ai, pref⟩ 1
        (some ({ subcommand := some .push, message := some "", uris := some [u] }, some true))
        []).events.all (fun e => !(e.stepId == some .inputMessage)) = true ∧
    (pushConfirmStep r
        { counter := 3, subcommand := some .push, repo := some r, message := some "",
          uris := some [u], flags := some [], confirm := some true } "" []).items.map Item.payload =
      [.flags [], .flags [.keepIndex]] ∧
    (pushConfirmStep r
        { counter := 3, subcommand := some .push, repo := some r, message := some "",
          uris := some [u], flags := some [], confirm := some true } "" []).items.map Item.detail =
      ["Will stash changes in " ++ getFormattedPath u r.path,
       "Will stash changes in " ++ getFormattedPath u r.path
         ++ ", but will keep staged files intact"] :=
  ⟨rfl, rfl, rfl, rfl, rfl, rfl⟩

end GitLens
